import Mathlib

/-!
Verification of the fcpp monitoring exercises repository.

The development shallowly embeds the two source files
(`src/run/exercises.cpp` and `src/lib/movement.hpp`).  FCPP library
primitives that the sources call but whose code is not part of the
repository sources (the field-calculus `old` state store, the past-CTL
operators `Y`, `G`, `AS`, the `time_since` and `sum_hood` helpers, and
the `follow_target` movement step) are modelled from the specification,
each with a doc comment saying so.  Machine reals (`real_t`) are
embedded as rationals wherever only comparisons and linear arithmetic
occur, and as real numbers where Euclidean magnitudes are needed.
-/

namespace FcppMonitoring

/-! ### Past-time temporal operators on per-device boolean traces

A device's history of a boolean is a function `ℕ → Bool` giving the
value at each round of the device's lifetime (round 0 is the first
round).  The incremental operators below step one slot of round state
per round, exactly as the spec describes them. -/

/-- Modelled from the spec: `Yesterday(x)` returns the previous round's
value of `x`, defaulting to a caller-chosen boolean `d` at round 0
(the monitor's calls use default `false`). -/
def yesterdayB (d : Bool) (x : ℕ → Bool) : ℕ → Bool
  | 0 => d
  | r + 1 => x r

/-- Modelled from the spec: `Globally-since-start(x)`, the sticky AND of
`x` across the device's own lifetime, computed incrementally. -/
def gsinceB (x : ℕ → Bool) : ℕ → Bool
  | 0 => x 0
  | r + 1 => x (r + 1) && gsinceB x r

/-- Modelled from the spec: `Since(p, q)` computed incrementally with
one boolean of state, initially `false`, updated each round as
`h := q OR (p AND h_prev)`. -/
def sinceB (p q : ℕ → Bool) : ℕ → Bool
  | 0 => q 0 || (p 0 && false)
  | r + 1 => q (r + 1) || (p (r + 1) && sinceB p q r)

/-- Direct (non-incremental) definition of `Since(p, q)` at round `r`:
there exists a round `rp ≤ r` at which `q` was true and `p` has been
true at every round strictly after `rp` up to and including `r`. -/
def sinceDirect (p q : ℕ → Bool) (r : ℕ) : Prop :=
  ∃ rp, rp ≤ r ∧ q rp = true ∧ ∀ i, rp < i → i ≤ r → p i = true

/-- Direct definition of `Globally-since-start(x)` at round `r`:
`x` has been true at every round from the first round through `r`. -/
def gsinceDirect (x : ℕ → Bool) (r : ℕ) : Prop :=
  ∀ i, i ≤ r → x i = true

/-- One-step unfolding of the direct `Since` semantics. -/
lemma sinceDirect_succ (p q : ℕ → Bool) (r : ℕ) :
    sinceDirect p q (r + 1) ↔
      q (r + 1) = true ∨ (p (r + 1) = true ∧ sinceDirect p q r) := by
  constructor
  · rintro ⟨rp, hle, hq, hp⟩
    rcases Nat.lt_or_ge rp (r + 1) with h | h
    · right
      refine ⟨hp (r + 1) (by omega) (by omega), rp, by omega, hq, ?_⟩
      intro i h1 h2
      exact hp i h1 (by omega)
    · left
      have : rp = r + 1 := by omega
      simpa [this] using hq
  · rintro (hq | ⟨hp, rp, hle, hq, hps⟩)
    · exact ⟨r + 1, le_refl _, hq, by intro i h1 h2; omega⟩
    · refine ⟨rp, by omega, hq, ?_⟩
      intro i h1 h2
      rcases Nat.lt_or_ge i (r + 1) with h | h
      · exact hps i h1 (by omega)
      · have : i = r + 1 := by omega
        simpa [this] using hp

/-- The incremental `Since` agrees with its direct definition. -/
lemma sinceB_iff_direct (p q : ℕ → Bool) (r : ℕ) :
    sinceB p q r = true ↔ sinceDirect p q r := by
  induction r with
  | zero =>
      simp only [sinceB, Bool.and_false, Bool.or_false, sinceDirect]
      constructor
      · intro h
        exact ⟨0, le_refl _, h, by intro i h1 h2; omega⟩
      · rintro ⟨rp, hle, hq, -⟩
        have : rp = 0 := by omega
        simpa [this] using hq
  | succ r ih =>
      rw [sinceDirect_succ]
      simp only [sinceB, Bool.or_eq_true, Bool.and_eq_true]
      rw [ih]

/-- The incremental `Globally-since-start` agrees with its direct
definition. -/
lemma gsinceB_iff_direct (x : ℕ → Bool) (r : ℕ) :
    gsinceB x r = true ↔ gsinceDirect x r := by
  induction r with
  | zero =>
      simp only [gsinceB, gsinceDirect]
      constructor
      · intro h i hi
        have : i = 0 := by omega
        simpa [this] using h
      · intro h
        exact h 0 (le_refl _)
  | succ r ih =>
      simp only [gsinceB, Bool.and_eq_true, gsinceDirect]
      rw [ih]
      constructor
      · rintro ⟨hx, hall⟩ i hi
        rcases Nat.lt_or_ge i (r + 1) with h | h
        · exact hall i (by omega)
        · have : i = r + 1 := by omega
          simpa [this] using hx
      · intro h
        exact ⟨h (r + 1) (le_refl _), fun i hi => h i (by omega)⟩

/-! ### The consistency monitor, from `src/run/exercises.cpp` lines 54-65 -/

/-- Embedding of `split` from `src/lib/movement.hpp` lines 97-100: it
pushes `key` on the stack trace (isolating all round state used inside
by that key) and runs the body.  In the embedding, per-key isolation is
reflected by the body operating on the trace observed under that key. -/
def split (key : ℕ) (f : Unit → Bool) : Bool := f ()

/-- The monitor's `alert_start`: `Y(CALL, !cluster) & cluster`. -/
def alertStart (c : ℕ → Bool) (r : ℕ) : Bool :=
  yesterdayB false (fun i => !(c i)) r && c r

/-- The monitor's `alert_end`: `Y(CALL, cluster) & (!cluster)`. -/
def alertEnd (c : ℕ → Bool) (r : ℕ) : Bool :=
  yesterdayB false c r && !(c r)

/-- The monitor's `all_alerted`: `G(CALL, cluster)`. -/
def allAlerted (c : ℕ → Bool) : ℕ → Bool := gsinceB c

/-- The monitor's `no_new_alarms_after_all_alerted`:
`AS(CALL, !alert_start, all_alerted)`. -/
def noNewAlarms (c : ℕ → Bool) : ℕ → Bool :=
  sinceB (fun i => !(alertStart c i)) (allAlerted c)

/-- Embedding of `consistency_monitor` (`src/run/exercises.cpp` lines
54-65).  `gkey` is the partition key `node.uid / max_group_size` passed
to `split`; `c` is the device's `cluster` input trace as observed inside
that partition scope; the C++ `<=` on `bool` is the boolean order. -/
def consistencyMonitor (gkey : ℕ) (c : ℕ → Bool) (r : ℕ) : Bool :=
  split gkey (fun _ => decide (alertEnd c r ≤ noNewAlarms c r))

/-- The spec's formula for the monitor, with the direct (non-incremental)
semantics of `Since` and `Globally-since-start` spelled out. -/
def monitorFormula (c : ℕ → Bool) (r : ℕ) : Prop :=
  alertEnd c r = true →
    ∃ rp, rp ≤ r ∧ (∀ i, i ≤ rp → c i = true) ∧
      ∀ i, rp < i → i ≤ r → alertStart c i = false

/-- The incremental `no_new_alarms_after_all_alerted` agrees with the
direct reading of `Since(¬alert_start, Globally-since-start(cluster))`. -/
lemma noNewAlarms_iff (c : ℕ → Bool) (r : ℕ) :
    noNewAlarms c r = true ↔
      ∃ rp, rp ≤ r ∧ (∀ i, i ≤ rp → c i = true) ∧
        ∀ i, rp < i → i ≤ r → alertStart c i = false := by
  rw [noNewAlarms, sinceB_iff_direct]
  unfold sinceDirect
  constructor
  · rintro ⟨rp, h1, h2, h3⟩
    refine ⟨rp, h1, (gsinceB_iff_direct c rp).1 h2, ?_⟩
    intro i hi1 hi2
    have := h3 i hi1 hi2
    simpa using this
  · rintro ⟨rp, h1, h2, h3⟩
    refine ⟨rp, h1, (gsinceB_iff_direct c rp).2 h2, ?_⟩
    intro i hi1 hi2
    simpa using h3 i hi1 hi2

/-- C1: for every device, round and boolean `cluster` trace, the
consistency monitor returns exactly the value of the formula
`alert_end ⇒ no_new_alarms_after_all_alerted`, with
`alert_start = Y(¬cluster) ∧ cluster`, `alert_end = Y(cluster) ∧ ¬cluster`,
`all_alerted = Globally-since-start(cluster)`,
`no_new = Since(¬alert_start, all_alerted)` (direct semantics), the
implication realized as boolean `≤`, evaluated inside the partition
scope keyed by the device's group id. -/
theorem consistency_monitor_formula (gkey : ℕ) (c : ℕ → Bool) (r : ℕ) :
    consistencyMonitor gkey c r = true ↔ monitorFormula c r := by
  have h := noNewAlarms_iff c r
  unfold consistencyMonitor split monitorFormula
  rw [decide_eq_true_eq, ← h]
  cases he : alertEnd c r <;> cases hn : noNewAlarms c r <;>
    simp [he, hn]

/-- C3: the incremental computation of `Since` (state initially `false`,
updated each round as `h := q OR (p AND h_prev)`) agrees at every round
with the direct definition, and is `false` whenever `q` never held. -/
theorem since_incremental_correct (p q : ℕ → Bool) (r : ℕ) :
    (sinceB p q r = true ↔ sinceDirect p q r) ∧
      ((∀ i, i ≤ r → q i = false) → sinceB p q r = false) := by
  refine ⟨sinceB_iff_direct p q r, ?_⟩
  intro hq
  cases hs : sinceB p q r
  · rfl
  · exfalso
    rcases (sinceB_iff_direct p q r).1 hs with ⟨rp, hle, hqr, -⟩
    rw [hq rp hle] at hqr
    exact absurd hqr (by decide)

/-- Witness for C3 at a concrete input of length more than 20 rounds. -/
theorem since_incremental_correct_witness :
    sinceB (fun _ => true) (fun _ => false) 20 = false :=
  (since_incremental_correct (fun _ => true) (fun _ => false) 20).2
    (fun _ _ => rfl)

/-- C4: `Globally-since-start` is monotone non-increasing (once false at
round `r` it stays false at every later round), and it is true at round
`r` iff the input has been true at every round through `r`. -/
theorem gsince_monotone_correct (x : ℕ → Bool) (r : ℕ) :
    (gsinceB x r = false → ∀ s, r ≤ s → gsinceB x s = false) ∧
      (gsinceB x r = true ↔ ∀ i, i ≤ r → x i = true) := by
  constructor
  · intro hf s hs
    cases hgs : gsinceB x s
    · rfl
    · exfalso
      have h1 := (gsinceB_iff_direct x s).1 hgs
      have h2 : gsinceDirect x r := fun i hi => h1 i (le_trans hi hs)
      rw [(gsinceB_iff_direct x r).2 h2] at hf
      cases hf
  · exact gsinceB_iff_direct x r

/-- Witness for C4 at a concrete boolean sequence. -/
theorem gsince_monotone_correct_witness :
    gsinceB (fun i => decide (i = 0)) 3 = false :=
  (gsince_monotone_correct (fun i => decide (i = 0)) 1).1
    (by decide) 3 (by decide)

/-! ### Round State Store (spec section 4.1), the substrate of `old` -/

/-- A round-state slot key: device id, call-site identity, partition
path (spec section 3, "Round-state slot"). -/
abbrev SlotKey : Type := ℕ × ℕ × List ℕ

/-- Modelled from the spec: the Round State Store of a network, as the
mapping from slot keys to the value last committed there, if any. -/
def Store (V : Type) : Type := SlotKey → Option V

/-- Modelled from the spec: `read_or_init` returns the slot's stored
value, or the caller-supplied default if the slot was never committed. -/
def read_or_init {V : Type} (s : Store V) (k : SlotKey) (d : V) : V :=
  (s k).getD d

/-- Modelled from the spec: the store state entering round `r`, given for
each earlier round the values committed during that round (`none` for
slots not written then).  Round 0 starts from an empty store; each
round's commits overwrite the affected slots. -/
def runStore {V : Type} (writes : ℕ → SlotKey → Option V) : ℕ → Store V
  | 0 => fun _ => none
  | r + 1 => fun k =>
      match writes r k with
      | some v => some v
      | none => runStore writes r k

/-- The store entering round `r` depends only on commits of rounds
strictly before `r`. -/
lemma runStore_congr {V : Type} (w1 w2 : ℕ → SlotKey → Option V) (r : ℕ)
    (h : ∀ i, i < r → w1 i = w2 i) : runStore w1 r = runStore w2 r := by
  induction r with
  | zero => rfl
  | succ r ih =>
      funext k
      simp only [runStore]
      rw [h r (by omega), ih (fun i hi => h i (by omega))]

/-- C2: a round-state slot read at round `r+1` returns exactly the value
committed for the same device/call-site/partition path at round `r`; the
store a round reads never depends on that round's own commits (nor on
any later ones); and at the device's first round, with no prior commit,
the read returns the caller-supplied default. -/
theorem old_one_round_lag {V : Type} (writes : ℕ → SlotKey → Option V)
    (k : SlotKey) (d v : V) (r : ℕ) :
    (writes r k = some v →
      read_or_init (runStore writes (r + 1)) k d = v) ∧
    (∀ writes2 : ℕ → SlotKey → Option V,
      (∀ i, i < r → writes2 i = writes i) →
      runStore writes2 r = runStore writes r) ∧
    read_or_init (runStore writes 0) k d = d := by
  refine ⟨?_, ?_, rfl⟩
  · intro h
    simp [read_or_init, runStore, h]
  · intro w2 hw
    exact runStore_congr w2 writes r hw

/-- Witness for C2: a commit of 7 at round 0 is read back at round 1. -/
theorem old_one_round_lag_witness :
    read_or_init
      (runStore (fun i (_ : SlotKey) => if i = 0 then some 7 else none) 1)
      (0, 1, [2]) 0 = 7 :=
  (old_one_round_lag (fun i _ => if i = 0 then some 7 else none)
    (0, 1, [2]) 0 7 0).1 rfl

/-! ### Group identity arithmetic -/

/-- `max_group_size` from `src/lib/movement.hpp` line 20. -/
def max_group_size : ℕ := 100

/-- The leader derived by `group_walk` (`src/lib/movement.hpp` line 66):
`node.uid - (node.uid % max_group_size)`. -/
def leaderOf (uid : ℕ) : ℕ := uid - uid % max_group_size

/-- The partition key used by the monitor (`src/run/exercises.cpp` line
57): `node.uid / max_group_size`. -/
def monitorKey (uid : ℕ) : ℕ := uid / max_group_size

/-- The spawn groups configured in `src/run/exercises.cpp` lines
146-150, as (group id, configured group size) pairs. -/
def spawnGroups : List (ℕ × ℕ) :=
  [(0, 1), (1, 20), (2, 10), (3, 10), (4, 40)]

/-- The device ids spawned for a group (`src/lib/movement.hpp` lines
130-141: `group_size` spawn events with uids forming an arithmetic
sequence starting at `max_group_size * group_id` with step 1). -/
def groupUids (g size : ℕ) : List ℕ :=
  (List.range size).map (fun k => max_group_size * g + k)

/-- The claim's leader formula, following the claim's words with
`groupSize` the configured size of the device's spawn group. -/
def leaderClaim (uid gsize : ℕ) : ℕ := uid - uid % gsize

/-- The claim's partition-key formula, following the claim's words with
`groupSize` the configured size of the device's spawn group. -/
def keyClaim (uid gsize : ℕ) : ℕ := uid / gsize

/-- Counterexample to C8: device 100 belongs to the spawned group of id 1
and configured size 20, but the monitor partitions it under key
`100 / max_group_size = 1`, not `100 div 20 = 5` as the claim states. -/
theorem group_key_claim_counterexample :
    (1, 20) ∈ spawnGroups ∧ (100 : ℕ) ∈ groupUids 1 20 ∧
      keyClaim 100 20 = 5 ∧ monitorKey 100 = 1 ∧
      keyClaim 100 20 ≠ monitorKey 100 := by decide

/-- C8 amended: with `groupSize` read as the maximum group size
(`max_group_size = 100`) instead of the configured spawn-group size, for
every configured spawn group and every device in it the derived leader
is `uid − (uid mod 100)`, which is the group's first id, the monitor's
partition key is `uid div 100`, which is the group id, both being
functions of the device's fixed uid alone (hence the same at every round
of its lifetime), and exactly one member of the group has uid equal to
the derived leader id. -/
theorem group_identity_amended (g size uid : ℕ)
    (hg : (g, size) ∈ spawnGroups) (hu : uid ∈ groupUids g size) :
    leaderOf uid = max_group_size * g ∧ monitorKey uid = g ∧
      (groupUids g size).count (leaderOf uid) = 1 := by
  simp only [groupUids, List.mem_map, List.mem_range] at hu
  obtain ⟨k, hk, rfl⟩ := hu
  have hsize : 0 < size ∧ size ≤ 100 := by
    simp only [spawnGroups, List.mem_cons, List.not_mem_nil, or_false,
      Prod.mk.injEq] at hg
    omega
  have hk100 : k < 100 := by omega
  have hmod : (max_group_size * g + k) % max_group_size = k := by
    simp [max_group_size, Nat.mul_add_mod, Nat.mod_eq_of_lt hk100]
  have hleader : leaderOf (max_group_size * g + k) = max_group_size * g := by
    simp [leaderOf, hmod]
  refine ⟨hleader, ?_, ?_⟩
  · simp [monitorKey, max_group_size, Nat.mul_add_div,
      Nat.div_eq_of_lt hk100]
  · rw [hleader]
    have hnodup : (groupUids g size).Nodup :=
      (List.nodup_range size).map (fun a b hab => by omega)
    have hmem : max_group_size * g ∈ groupUids g size := by
      simp only [groupUids, List.mem_map, List.mem_range]
      exact ⟨0, hsize.1, by omega⟩
    exact List.count_eq_one_of_mem hnodup hmem

/-- Witness for the amended C8 at device 105 of spawn group 1. -/
theorem group_identity_amended_witness :
    leaderOf 105 = max_group_size * 1 ∧ monitorKey 105 = 1 ∧
      (groupUids 1 20).count (leaderOf 105) = 1 :=
  group_identity_amended 1 20 105 (by decide) (by decide)

/-! ### The basic propositions of the main round function
(`src/run/exercises.cpp` lines 76-77) -/

/-- `communication_range` from `src/run/exercises.cpp` line 21. -/
def communication_range : ℚ := 100

/-- Embedding of the `warning` proposition (`src/run/exercises.cpp` line
76).  `dists` is the `nbr_dist` field over the neighbourhood aggregation,
one entry per device, the computing device itself included at distance 0.
`sum_hood` and `mux` are modelled from the spec: the neighbourhood sum of
the per-device numeric projection. -/
def warningOf (dists : List ℚ) : Bool :=
  decide (5 < (dists.map
    (fun d => if d < 0.25 * communication_range then (1 : ℤ) else 0)).sum)

/-- Embedding of the `cluster` proposition (`src/run/exercises.cpp` line
77) for a device whose neighbourhood aggregation has `n` devices.  The
argument of `sum_hood` is `mux(warning, 1, 0)` where `warning` is the
device's own local boolean, never exchanged through the Neighbor
Exchange Channel; modelled from the spec (section 4.2: neighbour values
exist only for exported call-sites), every one of the `n` devices of the
neighbourhood contributes the computing device's own local value. -/
def clusterOf (warning : Bool) (n : ℕ) : Bool :=
  decide (3 ≤ (List.replicate n (if warning then (1 : ℤ) else 0)).sum)

/-- The claim's reading of `cluster`, following the claim's words: at
least 3 devices of the neighbourhood aggregation currently have a true
`warning`. -/
def clusterClaim (warnings : List Bool) : Bool :=
  decide (3 ≤ warnings.countP (fun b => b))

/-- Distance profile of the counterexample device A: itself at 0 and six
neighbours at distance 30 (within communication range 100 but not within
25). -/
def distsA : List ℚ := [0, 30, 30, 30, 30, 30, 30]

/-- Distance profile of each of six devices bunched a few units apart on
a circle of radius 30 around A: itself at 0, five companions close by,
and A at 30. -/
def distsB : List ℚ := [0, 2, 3, 4, 5, 6, 30]

/-- Counterexample to C10's `cluster` clause: device A has `warning`
false (only itself within 25) while the six other devices of its
neighbourhood have `warning` true; the claim's reading makes `cluster`
true at A (6 ≥ 3 devices with `warning`), but the code computes false,
because `sum_hood` aggregates A's own local `warning`. -/
theorem cluster_claim_counterexample :
    warningOf distsA = false ∧ warningOf distsB = true ∧
      clusterClaim
        (warningOf distsA :: List.replicate 6 (warningOf distsB)) = true ∧
      clusterOf (warningOf distsA) 7 = false := by
  have hA : warningOf distsA = false := by
    norm_num [warningOf, distsA, communication_range]
  have hB : warningOf distsB = true := by
    norm_num [warningOf, distsB, communication_range]
  refine ⟨hA, hB, ?_, ?_⟩
  · rw [hA, hB]
    decide
  · rw [hA]
    decide

/-- Sum of a 0/1 projection equals the count of satisfying elements. -/
lemma sum_map_ite_one_zero {α : Type} (p : α → Prop) [DecidablePred p]
    (l : List α) :
    (l.map (fun a => if p a then (1 : ℤ) else 0)).sum =
      l.countP (fun a => decide (p a)) := by
  induction l with
  | nil => rfl
  | cons a l ih =>
      by_cases h : p a <;>
        simp [List.countP_cons, ih, h, add_comm]

/-- C10 amended: `warning` holds iff strictly more than 5 devices of the
neighbourhood aggregation (self included, at distance 0) are at distance
below 25 = 0.25 × the communication range of 100; `cluster` holds iff
the device's own `warning` is true and the neighbourhood aggregation
counts at least 3 devices. -/
theorem warning_cluster_amended (dists : List ℚ) (w : Bool) (n : ℕ) :
    (warningOf dists = true ↔
      5 < dists.countP
        (fun d => decide (d < 0.25 * communication_range))) ∧
    (clusterOf w n = true ↔ (w = true ∧ 3 ≤ n)) := by
  constructor
  · rw [warningOf, decide_eq_true_eq,
      sum_map_ite_one_zero (fun d => d < 0.25 * communication_range)]
    exact_mod_cast Iff.rfl
  · rw [clusterOf, decide_eq_true_eq, List.sum_replicate]
    cases w
    · rw [show (if (false : Bool) = true then (1 : ℤ) else 0) = 0 from rfl,
        smul_zero]
      constructor
      · intro h
        exact absurd h (by decide)
      · rintro ⟨h, -⟩
        cases h
    · rw [show (if (true : Bool) = true then (1 : ℤ) else 0) = 1 from rfl,
        nsmul_eq_mul, mul_one]
      constructor
      · intro h
        exact ⟨rfl, by exact_mod_cast h⟩
      · rintro ⟨-, h⟩
        exact_mod_cast h

/-! ### Movement engine (`src/lib/movement.hpp`) -/

/-- `hi_x` from `src/lib/movement.hpp` line 22. -/
def hi_x : ℚ := 1200

/-- `hi_y` from `src/lib/movement.hpp` line 24. -/
def hi_y : ℚ := 800

/-- Squared Euclidean norm of a planar vector.  The source compares a
vector against a scalar bound through its Euclidean norm; the embedding
uses the equivalent comparison of the squared norm against the squared
bound. -/
def normSq (a : ℚ × ℚ) : ℚ := a.1 * a.1 + a.2 * a.2

/-- Displacement of the device at each round:
`node.position() - old(CALL, node.position())` from
`src/lib/movement.hpp` line 43, the position change since the previous
round, and the zero vector at the device's first round (modelled from
the spec: `old` reads the previous round's committed value, the nested
`old` defaulting to the current position at round 0). -/
def dispOf (pos : ℕ → ℚ × ℚ) : ℕ → ℚ × ℚ
  | 0 => pos 0 - pos 0
  | r + 1 => pos (r + 1) - pos r

/-- The round-state slot of the velocity-smoothing `old` of
`reach_on_streets` (`src/lib/movement.hpp` lines 42-44): each round
commits `k*ov + displacement` with `k = 0.75`, starting from the default
`make_vec(0,0)`.  Modelled from the spec: the functional `old` reads the
previous commit and returns the updated value it commits. -/
def smoothState (pos : ℕ → ℚ × ℚ) : ℕ → ℚ × ℚ
  | 0 => (0.75 : ℚ) • ((0 : ℚ), (0 : ℚ)) + dispOf pos 0
  | r + 1 => (0.75 : ℚ) • smoothState pos r + dispOf pos (r + 1)

/-- The smoothed velocity estimate `v` of `reach_on_streets`: the
updated slot value multiplied by `(1-k) = 0.25`. -/
def smoothedV (pos : ℕ → ℚ × ℚ) (r : ℕ) : ℚ × ℚ :=
  (1 - 0.75 : ℚ) • smoothState pos r

/-- Modelled from the spec: the elapsed time (in rounds; the group-walk
period is 1) since the given boolean history was last true — 0 when it
holds at the current round, infinite when it never held. -/
def timeSinceB (hist : ℕ → Bool) : ℕ → ℕ∞
  | 0 => if hist 0 then 0 else ⊤
  | r + 1 => if hist (r + 1) then 0 else timeSinceB hist r + 1

/-- The way-point selection of `reach_on_streets`
(`src/lib/movement.hpp` lines 45-54): start from the navigation oracle's
way-point `path_to`, then fall back to the raw target when the oracle
answer is NaN, when the target leaves the map rectangle, when the
remaining distance to the way-point is below 0.01 (embedded as the
squared bound 1/10000), or when the stuck-recovery condition
`time_since(v < 0.1) < 10 and time > 50` holds (the speed threshold 0.1
embedded as the squared bound 1/100 in the history fed to
`timeSinceB`). -/
def chooseWaypoint (pos target oracleWp : ℚ × ℚ) (oracleNan : Bool)
    (tSince : ℕ∞) (curTime : ℚ) : ℚ × ℚ :=
  let t1 := if oracleNan then target else oracleWp
  let t2 :=
    if target.1 < 0 ∨ target.2 < 0 ∨ target.1 > hi_x ∨ target.2 > hi_y
    then target else t1
  let t3 := if normSq (pos - t2) < 1 / 10000 then target else t2
  if tSince < 10 ∧ curTime > 50 then target else t3

/-- C6: if the smoothed speed estimate has stayed below 0.1 units for 10
consecutive rounds up to the current round and the simulated time
exceeds 50, the way-point passed to the movement step is the raw target,
whatever the navigation oracle answered. -/
theorem stuck_fallback_trigger (pos target oracleWp : ℚ × ℚ)
    (oracleNan : Bool) (v : ℕ → ℚ × ℚ) (r : ℕ) (curTime : ℚ)
    (hslow : ∀ i, i ≤ r → r < i + 10 → normSq (v i) < 1 / 100)
    (htime : 50 < curTime) :
    chooseWaypoint pos target oracleWp oracleNan
      (timeSinceB (fun i => decide (normSq (v i) < 1 / 100)) r) curTime
      = target := by
  have hr : (fun i => decide (normSq (v i) < 1 / 100)) r = true := by
    simpa using hslow r (le_refl r) (by omega)
  have hts : timeSinceB (fun i => decide (normSq (v i) < 1 / 100)) r = 0 := by
    cases r with
    | zero => simp only [timeSinceB, hr, if_true]
    | succ r => simp only [timeSinceB, hr, if_true]
  unfold chooseWaypoint
  rw [hts, if_pos ⟨by norm_num, htime⟩]

/-- Witness for C6 with a ten-round all-zero speed trace and time 51. -/
theorem stuck_fallback_trigger_witness :
    chooseWaypoint (0, 0) (5, 5) (1, 1) false
      (timeSinceB
        (fun i => decide (normSq ((fun _ => ((0 : ℚ), (0 : ℚ))) i) < 1 / 100))
        10) 51 = (5, 5) :=
  stuck_fallback_trigger (0, 0) (5, 5) (1, 1) false (fun _ => (0, 0)) 10 51
    (fun _ _ _ => by norm_num [normSq]) (by norm_num)

/-- The leader's target update in `group_walk` (`src/lib/movement.hpp`
lines 74-78): the candidate committed for the next round is the held
candidate `t` when the distance reported by `reach_on_streets` this
round exceeds `max_v * period`, and otherwise the freshly drawn random
target of this round. -/
def leaderTargetUpdate (heldT freshT : ℚ × ℚ) (dist maxv period : ℚ) :
    ℚ × ℚ :=
  if dist > maxv * period then heldT else freshT

/-- C5: with `freshT` the uniformly drawn random target of this round
(modelled from the spec: an arbitrary point of the map rectangle
[0,1200] × [0,800]), `heldT` the candidate held in round state and
`dist` the distance reported by the advance-toward-target step, the
candidate is kept exactly when `dist` exceeds `maxSpeed × period`, and
otherwise replaced by the fresh draw, which lies inside the full map
rectangle. -/
theorem leader_retarget (heldT freshT : ℚ × ℚ) (dist maxv period : ℚ)
    (hfresh : 0 ≤ freshT.1 ∧ freshT.1 ≤ hi_x ∧
      0 ≤ freshT.2 ∧ freshT.2 ≤ hi_y)
    (hne : freshT ≠ heldT) :
    (leaderTargetUpdate heldT freshT dist maxv period = heldT ↔
      maxv * period < dist) ∧
    (dist ≤ maxv * period →
      leaderTargetUpdate heldT freshT dist maxv period = freshT ∧
      0 ≤ (leaderTargetUpdate heldT freshT dist maxv period).1 ∧
      (leaderTargetUpdate heldT freshT dist maxv period).1 ≤ hi_x ∧
      0 ≤ (leaderTargetUpdate heldT freshT dist maxv period).2 ∧
      (leaderTargetUpdate heldT freshT dist maxv period).2 ≤ hi_y) := by
  unfold leaderTargetUpdate
  by_cases h : maxv * period < dist
  · rw [if_pos h]
    exact ⟨⟨fun _ => h, fun _ => rfl⟩,
      fun hle => absurd h (not_lt.2 hle)⟩
  · rw [if_neg h]
    refine ⟨⟨fun he => absurd he hne, fun hlt => absurd hlt h⟩, ?_⟩
    intro _
    exact ⟨rfl, hfresh.1, hfresh.2.1, hfresh.2.2.1, hfresh.2.2.2⟩

/-- Witness for C5: reported distance 3 with speed budget 1 keeps the
held target. -/
theorem leader_retarget_witness :
    leaderTargetUpdate (1, 1) (2, 2) 3 1 1 = (1, 1) :=
  ((leader_retarget (1, 1) (2, 2) 3 1 1
    (by norm_num [hi_x, hi_y])
    (by norm_num [Prod.ext_iff])).1).mpr (by norm_num)

/-- C9: the smoothed velocity estimate is the zero vector at the first
round and satisfies `v_new = 0.75·v_old + 0.25·displacement` at every
later round; moreover it influences the way-point choice only through
the below-0.1 stuck threshold — two estimate traces agreeing on that
threshold yield identical way-points — and never enters the motion
otherwise. -/
theorem velocity_smoothing (pos : ℕ → ℚ × ℚ) :
    smoothedV pos 0 = (0, 0) ∧
    (∀ r, smoothedV pos (r + 1) =
      (0.75 : ℚ) • smoothedV pos r + (0.25 : ℚ) • dispOf pos (r + 1)) ∧
    (∀ (v w : ℕ → ℚ × ℚ) (r : ℕ) (p target owp : ℚ × ℚ)
      (nan : Bool) (ct : ℚ),
      (∀ i, normSq (v i) < 1 / 100 ↔ normSq (w i) < 1 / 100) →
      chooseWaypoint p target owp nan
        (timeSinceB (fun i => decide (normSq (v i) < 1 / 100)) r) ct =
      chooseWaypoint p target owp nan
        (timeSinceB (fun i => decide (normSq (w i) < 1 / 100)) r) ct) := by
  refine ⟨?_, ?_, ?_⟩
  · show (1 - 0.75 : ℚ) • ((0.75 : ℚ) • ((0 : ℚ), (0 : ℚ)) +
      (pos 0 - pos 0)) = (0, 0)
    rw [sub_self, Prod.mk_zero_zero, smul_zero, add_zero, smul_zero]
  · intro r
    show (1 - 0.75 : ℚ) • ((0.75 : ℚ) • smoothState pos r +
      dispOf pos (r + 1)) = _
    rw [smul_add, smul_smul, smoothedV, smul_smul]
    norm_num [mul_comm]
  · intro v w r p target owp nan ct h
    have he : (fun i => decide (normSq (v i) < 1 / 100)) =
        (fun i => decide (normSq (w i) < 1 / 100)) := by
      funext i
      exact decide_eq_decide.mpr (h i)
    rw [he]

/-- Witness for C9's threshold-only dependence, with two distinct speed
traces both below the threshold. -/
theorem velocity_smoothing_witness :
    chooseWaypoint (0, 0) (5, 5) (1, 1) false
      (timeSinceB
        (fun i => decide (normSq ((fun _ => ((0 : ℚ), (0 : ℚ))) i) < 1 / 100))
        3) 0 =
    chooseWaypoint (0, 0) (5, 5) (1, 1) false
      (timeSinceB
        (fun i =>
          decide (normSq ((fun _ => ((0 : ℚ), (1 / 20 : ℚ))) i) < 1 / 100))
        3) 0 :=
  (velocity_smoothing (fun _ => (0, 0))).2.2
    (fun _ => (0, 0)) (fun _ => (0, 1 / 20)) 3 (0, 0) (5, 5) (1, 1) false 0
    (fun _ => iff_of_true (by norm_num [normSq]) (by norm_num [normSq]))

/-! ### Movement bound (spec section 4.4, the follow-target step) -/

/-- Squared Euclidean norm of a planar real vector. -/
def normSqR (a : ℝ × ℝ) : ℝ := a.1 * a.1 + a.2 * a.2

/-- Modelled from the spec: one step of `follow_target` — move toward
the way-point `t` at a speed not exceeding `maxSpeed`, covering at most
`maxd = maxSpeed × period` distance this round (reaching `t` when it is
that close), and report the actual distance advanced.  Stated as the
graph relation of the step: `newpos` is the position after the step and
`advance` the reported distance. -/
def followTargetStep (pos t : ℝ × ℝ) (maxd : ℝ) (newpos : ℝ × ℝ)
    (advance : ℝ) : Prop :=
  (Real.sqrt (normSqR (t - pos)) ≤ maxd ∧ newpos = t ∧
    advance = Real.sqrt (normSqR (t - pos))) ∨
  (maxd < Real.sqrt (normSqR (t - pos)) ∧
    newpos = pos + (maxd / Real.sqrt (normSqR (t - pos))) • (t - pos) ∧
    advance = maxd)

/-- Scaling a vector scales its Euclidean magnitude by the absolute
value of the scalar. -/
lemma sqrt_normSqR_smul (c : ℝ) (a : ℝ × ℝ) :
    Real.sqrt (normSqR (c • a)) = |c| * Real.sqrt (normSqR a) := by
  unfold normSqR
  have h1 : (c • a).1 = c * a.1 := rfl
  have h2 : (c • a).2 = c * a.2 := rfl
  rw [h1, h2]
  have h3 : c * a.1 * (c * a.1) + c * a.2 * (c * a.2) =
      c ^ 2 * (a.1 * a.1 + a.2 * a.2) := by ring
  rw [h3, Real.sqrt_mul (sq_nonneg c), Real.sqrt_sq_eq_abs]

/-- C7: in any round of the street-reaching routine, for every target
and way-point (whatever the navigation oracle answered) and every step
permitted by the follow-target contract, the magnitude of the device's
displacement is at most `maxSpeed × period` (`period` is 1 in the
group-walk program, so at most `maxSpeed` distance units per round). -/
theorem movement_bound (pos t newpos : ℝ × ℝ) (maxv period advance : ℝ)
    (hv : 0 ≤ maxv) (hp : 0 ≤ period)
    (hstep : followTargetStep pos t (maxv * period) newpos advance) :
    Real.sqrt (normSqR (newpos - pos)) ≤ maxv * period := by
  have hmd : 0 ≤ maxv * period := mul_nonneg hv hp
  rcases hstep with ⟨hle, rfl, -⟩ | ⟨hlt, rfl, -⟩
  · exact hle
  · have hd : 0 < Real.sqrt (normSqR (t - pos)) := lt_of_le_of_lt hmd hlt
    rw [add_sub_cancel_left]
    calc Real.sqrt
          (normSqR ((maxv * period / Real.sqrt (normSqR (t - pos))) •
            (t - pos)))
        = |maxv * period / Real.sqrt (normSqR (t - pos))| *
            Real.sqrt (normSqR (t - pos)) :=
          sqrt_normSqR_smul _ _
      _ = maxv * period / Real.sqrt (normSqR (t - pos)) *
            Real.sqrt (normSqR (t - pos)) := by
          rw [abs_of_nonneg (div_nonneg hmd hd.le)]
      _ = maxv * period := div_mul_cancel₀ _ (ne_of_gt hd)
      _ ≤ maxv * period := le_refl _

/-- Witness for C7 at a concrete resting step. -/
theorem movement_bound_witness :
    Real.sqrt (normSqR ((((0 : ℝ), (0 : ℝ))) - (((0 : ℝ), (0 : ℝ))))) ≤
      10 * 1 :=
  movement_bound (0, 0) (0, 0) (0, 0) 10 1
    (Real.sqrt (normSqR ((0, 0) - (0, 0))))
    (by norm_num) (by norm_num)
    (Or.inl ⟨by norm_num [normSqR, Real.sqrt_zero], rfl, rfl⟩)

end FcppMonitoring
